import Mathlib

/-!
Verification of the 3DSS waterfall display pipeline (waterfall3dss.c and
waterfall.c of deskhpsdr-3dss).  The C code is shallowly embedded: machine
floats/doubles are modelled as exact rationals, C ints as ℤ or ℕ, arrays as
lists.  Each definition mirrors one function or code block of the source.
-/

namespace WF3DSS

/-- The sentinel "floor" dB value, -140.0f in the source. -/
def wfFloor : ℚ := -140

/-- clampf from waterfall3dss.c: x < a ? a : (x > b ? b : x). -/
def clampf (x a b : ℚ) : ℚ := if x < a then a else if b < x then b else x

/-- The history-buffer part of WaterfallGLState: depth, bin count, head index
and the D×B store of dB values (row-major, one inner list per row). -/
structure WFState where
  depth : ℕ
  bins : ℕ
  head : ℕ
  history : List (List ℚ)
deriving Repr, DecidableEq

/-- wf_reset_history: fill every cell with the floor value, head = 0. -/
def wf_reset_history (st : WFState) : WFState :=
  { st with
    history := List.replicate st.depth (List.replicate st.bins wfFloor),
    head := 0 }

/-- The freshly allocated state of waterfall3dss_init: g_malloc0 (zero-filled
storage) followed by wf_reset_history. -/
def init_state (depth bins : ℕ) : WFState :=
  wf_reset_history ⟨depth, bins, 0, List.replicate depth (List.replicate bins 0)⟩

/-- The push step at the end of waterfall3dss_update: write the row at head,
then advance head = (head + 1) mod depth. -/
def push_row (st : WFState) (row : List ℚ) : WFState :=
  { st with
    history := st.history.set st.head row,
    head := (st.head + 1) % st.depth }

/-- The row of logical age d, as indexed by waterfall3dss_gl_render:
physical row (head - d - 1 + depth) mod depth. -/
def row_at_age (st : WFState) (d : ℕ) : List ℚ :=
  st.history.getD ((st.head + st.depth - (d + 1)) % st.depth) []

/-- The sample-copy loop of waterfall3dss_update (lines 969-981): destination
bin i reads source index i + pan, substituting the floor value when that index
falls outside [0, pixelsTotal). -/
def sample_row (bins : ℕ) (pan pixelsTotal : ℤ) (samples : List ℚ) : List ℚ :=
  (List.range bins).map (fun (i : ℕ) =>
    let srcIdx : ℤ := (i : ℤ) + pan
    if srcIdx < 0 ∨ pixelsTotal ≤ srcIdx then wfFloor
    else samples.getD srcIdx.toNat 0)

/-- One row of the rotation loop of waterfall3dss_update (lines 919-942):
negative rotateBins shifts left (clearing the right edge), nonnegative shifts
right (clearing the left edge); move/clear counts are clamped to [0, bins]. -/
def rotate_row (rotateBins : ℤ) (row : List ℚ) : List ℚ :=
  let bins := row.length
  if rotateBins < 0 then
    let m := (-rotateBins).toNat
    (List.range bins).map (fun i =>
      if i < bins - m then row.getD (i + m) 0 else wfFloor)
  else
    let m := rotateBins.toNat
    (List.range bins).map (fun i =>
      if i < min m bins then wfFloor else row.getD (i - m) 0)

/-- Truncation toward zero: the semantics of C's (int) cast on a double. -/
def ratTrunc (q : ℚ) : ℤ := if 0 ≤ q then ⌊q⌋ else ⌈q⌉

/-- rotate_bins of waterfall3dss_update line 917:
(int)((waterfall_frequency - current_freq) / hz_per_bin) with
hz_per_bin = sample_rate / bins. -/
def rotate_bins_of (wfFrequency currentFreq sampleRate : ℤ) (bins : ℕ) : ℤ :=
  ratTrunc (((wfFrequency - currentFreq : ℤ) : ℚ) / ((sampleRate : ℚ) / (bins : ℚ)))

/-- The frequency-tracking fields persisted on the receiver:
rx->waterfall_frequency and rx->waterfall_sample_rate. -/
structure FreqState where
  wfFrequency : ℤ
  wfSampleRate : ℤ
deriving Repr, DecidableEq

/-- The frequency-handling block of waterfall3dss_update (lines 907-952):
reset on uninitialized tracker or sample-rate change; on a frequency change,
reset when the old frequency is outside current ± sample_rate/2, otherwise
rotate every history row; finally persist the new frequency/sample rate. -/
def freq_step (fs : FreqState) (sampleRate currentFreq : ℤ) (st : WFState) :
    WFState × FreqState :=
  if 0 < st.bins then
    let st2 :=
      if fs.wfFrequency ≠ 0 ∧ sampleRate = fs.wfSampleRate then
        if fs.wfFrequency ≠ currentFreq then
          let half := sampleRate / 2
          if fs.wfFrequency < currentFreq - half ∨ currentFreq + half < fs.wfFrequency then
            wf_reset_history st
          else
            let rb := rotate_bins_of fs.wfFrequency currentFreq sampleRate st.bins
            if rb ≠ 0 then
              { st with history := st.history.map (rotate_row rb) }
            else st
        else st
      else wf_reset_history st
    (st2, ⟨currentFreq, sampleRate⟩)
  else (st, fs)

/-- The per-tick inputs read from the receiver by waterfall3dss_update. -/
structure RxInput where
  screenW : ℕ
  zoom : ℤ
  pan : ℤ
  pixelsTotal : ℤ
  sampleRate : ℤ
  currentFreq : ℤ
  samples : List ℚ
deriving Repr, DecidableEq

/-- The mutable state touched by waterfall3dss_update: the history buffer,
the persisted frequency tracker, the tracked zoom/pan, and update_count. -/
structure TickState where
  st : WFState
  fs : FreqState
  wfZoom : ℤ
  wfPan : ℤ
  updateCount : ℕ
deriving Repr, DecidableEq

/-- Result of one producer tick: the new state, whether the delivered row was
written into history, and whether a redraw was requested. -/
structure TickOut where
  ts : TickState
  pushed : Bool
  redrawQueued : Bool
deriving Repr, DecidableEq

/-- waterfall3dss_update: guard degenerate widths, reset on zoom change,
reallocate+reset on bin-count change, run the frequency tracker, then either
skip the push (update_count < 5, AGC stabilization) or push the sampled row;
a redraw is queued in both of the last two cases. -/
def waterfall3dss_update (inp : RxInput) (t : TickState) : TickOut :=
  let bins := if inp.screenW = 0 then 800 else inp.screenW
  if bins ≤ 2 then ⟨t, false, false⟩
  else
    let st1 := if t.wfZoom ≠ inp.zoom then wf_reset_history t.st else t.st
    let wfZoom := inp.zoom
    let wfPan := inp.pan
    let st2 :=
      if st1.bins ≠ bins then
        wf_reset_history
          { st1 with bins := bins,
                     history := List.replicate st1.depth (List.replicate bins 0) }
      else st1
    let p := freq_step t.fs inp.sampleRate inp.currentFreq st2
    let uc := t.updateCount + 1
    if uc < 5 then
      ⟨⟨p.1, p.2, wfZoom, wfPan, uc⟩, false, true⟩
    else
      let row := sample_row p.1.bins inp.pan inp.pixelsTotal inp.samples
      ⟨⟨push_row p.1 row, p.2, wfZoom, wfPan, uc⟩, true, true⟩

/-- The resampling index of waterfall3dss_gl_render (lines 679-686):
bin_f = x/(W-1)*(B-1), truncated to int, clamped above to B-2. -/
def resample_bin (B W x : ℕ) : ℕ :=
  let binF : ℚ := (x : ℚ) / ((W - 1 : ℕ) : ℚ) * ((B - 1 : ℕ) : ℚ)
  let binI : ℕ := ⌊binF⌋₊
  if B - 1 ≤ binI then B - 2 else binI

/-- The strip sampling of waterfall3dss_gl_render: both adjacent history rows
are read through the same resampled index for every destination column. -/
def resample_strip (B W : ℕ) (row0 row1 : List ℚ) : List (ℚ × ℚ) :=
  (List.range W).map (fun x =>
    let b := resample_bin B W x
    (row0.getD b 0, row1.getD b 0))

/-- color_from_palette of waterfall3dss.c: the 7 palettes (0 Rainbow, 1 Ocean,
2 Green, 3 Gray, 4 Hot, 5 Cool, 6 Plasma) plus the Gray-like default. -/
def color_from_palette (palette : ℤ) (p0 : ℚ) : ℚ × ℚ × ℚ :=
  let p := clampf p0 0 1
  if palette = 0 then
    if p < 1/4 then (0, p / (1/4), 1)
    else if p < 1/2 then (0, 1, 1 - (p - 1/4) / (1/4))
    else if p < 3/4 then ((p - 1/2) / (1/4), 1, 0)
    else (1, 1 - ((p - 3/4) / (1/4)) * (1/2), 0)
  else if palette = 1 then
    (p * (3/10), 1/2 + p * (1/2), 7/10 + p * (3/10))
  else if palette = 2 then
    (p * (1/5), 3/10 + p * (7/10), p * (1/10))
  else if palette = 3 then (p, p, p)
  else if palette = 4 then
    if p < 33/100 then (p / (33/100), 0, 0)
    else if p < 66/100 then (1, (p - 33/100) / (33/100), 0)
    else (1, 1, (p - 66/100) / (34/100))
  else if palette = 5 then
    (0 + p, 1 - p * (1/2), 1 - p * (1/2))
  else if palette = 6 then
    if p < 33/100 then (1 - (p / (33/100)) * (8/10), 1 - (p / (33/100)) * (6/10), 1)
    else if p < 66/100 then
      (2/10 + ((p - 33/100) / (33/100)) * (5/10),
       4/10 + ((p - 33/100) / (33/100)) * (1/10), 1)
    else
      (7/10 + ((p - 66/100) / (34/100)) * (3/10),
       1/2 - ((p - 66/100) / (34/100)) * (1/2),
       1 - ((p - 66/100) / (34/100)) * 1)
  else (p, p, p)

/-- The base-color stage of sample_to_color (lines 352-378): the Plasma
three-stop gradient over dist01, or white-to-terminal interpolation keyed on
color_from_palette at intensity 1 for the other palettes. -/
def wf_base_color (palette : ℤ) (dist01 : ℚ) : ℚ × ℚ × ℚ :=
  if palette = 6 then
    if dist01 < 33/100 then
      let t := dist01 / (33/100)
      (1 - t * (8/10), 1 - t * (6/10), 1)
    else if dist01 < 66/100 then
      let t := (dist01 - 33/100) / (33/100)
      (2/10 + t * (5/10), 4/10 + t * (1/10), 1)
    else
      let t := (dist01 - 66/100) / (34/100)
      (7/10 + t * (3/10), 1/2 - t * (1/2), 1 - t * 1)
  else
    let tc := color_from_palette palette 1
    (1 + dist01 * (tc.1 - 1), 1 + dist01 * (tc.2.1 - 1), 1 + dist01 * (tc.2.2 - 1))

/-- The 35% noise threshold of sample_to_color. -/
def noise_threshold : ℚ := 35/100

/-- RGBA + normalized height produced by sample_to_color. -/
structure ColorOut where
  r : ℚ
  g : ℚ
  b : ℚ
  a : ℚ
  h01 : ℚ
deriving Repr, DecidableEq

/-- sample_to_color of waterfall3dss.c: normalize to p, black/flat below the
noise threshold, otherwise quadratic signal emphasis, height 1.8*signal²
clamped to [0,1], base color modulated multiplicatively by the signal. -/
def sample_to_color (low high : ℚ) (palette : ℤ) (sample dist01 : ℚ) : ColorOut :=
  let p := clampf ((sample - low) / (high - low)) 0 1
  if p < noise_threshold then ⟨0, 0, 0, 1, 0⟩
  else
    let signal0 := (p - noise_threshold) / (1 - noise_threshold)
    let signal := signal0 * signal0
    let h := clampf (signal * (9/5)) 0 1
    let base := wf_base_color palette dist01
    ⟨base.1 * signal, base.2.1 * signal, base.2.2 * signal, 1, h⟩

/-- Pointer/scroll events handled by the interaction callbacks of
waterfall3dss.c (button 1 press/release, motion, discrete and smooth scroll). -/
inductive CamEvent where
  | buttonPress (y : ℚ)
  | motionNotify (y : ℚ)
  | buttonRelease
  | scrollUp
  | scrollDown
  | scrollSmooth (deltaY : ℚ)
deriving Repr, DecidableEq

/-- The interactive-control fields of WaterfallGLState. -/
structure CamState where
  tilt_angle : ℚ
  zoom_level : ℚ
  dragging : Bool
  drag_start_y : ℚ
  drag_start_tilt : ℚ
deriving Repr, DecidableEq

/-- The values set by waterfall3dss_gl_realize: tilt 2.8, zoom 2.0, not
dragging (drag anchors are zero from g_malloc0). -/
def cam_init : CamState := ⟨14/5, 2, false, 0, 0⟩

/-- One pointer/scroll event, as handled by waterfall3dss_button_press,
waterfall3dss_motion (sensitivity 0.002, clamp tilt to [0,5]),
waterfall3dss_button_release and waterfall3dss_scroll (step 0.15, half-step
for smooth deltas, clamp zoom to [1,4]). -/
def cam_apply (s : CamState) (e : CamEvent) : CamState :=
  match e with
  | .buttonPress y =>
      { s with dragging := true, drag_start_y := y, drag_start_tilt := s.tilt_angle }
  | .motionNotify y =>
      if s.dragging then
        let t := s.drag_start_tilt + (y - s.drag_start_y) * (2/1000)
        { s with tilt_angle := clampf t 0 5 }
      else s
  | .buttonRelease => { s with dragging := false }
  | .scrollUp => { s with zoom_level := clampf (s.zoom_level - 3/20) 1 4 }
  | .scrollDown => { s with zoom_level := clampf (s.zoom_level + 3/20) 1 4 }
  | .scrollSmooth dy =>
      { s with zoom_level := clampf (s.zoom_level + dy * (3/20) * (1/2)) 1 4 }

/-- The wf_low/wf_high computation of waterfall_update in waterfall.c
(lines 344-358): in automatic mode, low = mean of the row + calibration
offset - 5 and high = low + 55; otherwise the configured values. -/
def waterfall_bounds (automatic : Bool) (samples : List ℚ) (soffset : ℚ)
    (waterfallLow waterfallHigh : ℤ) : ℚ × ℚ :=
  if automatic then
    let average := samples.sum
    let lo := average / (samples.length : ℚ) + soffset - 5
    (lo, lo + 55)
  else ((waterfallLow : ℚ), (waterfallHigh : ℚ))

/-! ## Helper lemmas -/

theorem clampf_le_right (x a b : ℚ) (hab : a ≤ b) : clampf x a b ≤ b := by
  unfold clampf
  split_ifs with h1 h2 <;> linarith

theorem le_clampf_left (x a b : ℚ) (hab : a ≤ b) : a ≤ clampf x a b := by
  unfold clampf
  split_ifs with h1 h2 <;> linarith

theorem getD_map_range (f : ℕ → ℚ) (n i : ℕ) (h : i < n) :
    ((List.range n).map f).getD i 0 = f i := by
  simp [List.getD_eq_getElem?_getD, List.getElem?_map, List.getElem?_range, h]

/-! ## Theorems for the claims -/

/-- Claim C10: when automatic mode is enabled, the wf_low/wf_high bounds used
by the color mapping of waterfall_update are mean of the current row plus the
calibration offset minus 5 dB, with the high bound 55 dB above the low bound,
independent of the explicitly configured waterfall_low/waterfall_high. -/
theorem automatic_threshold_bounds (samples : List ℚ) (soffset : ℚ)
    (low1 high1 low2 high2 : ℤ) :
    (waterfall_bounds true samples soffset low1 high1).1
      = samples.sum / (samples.length : ℚ) + soffset - 5 ∧
    (waterfall_bounds true samples soffset low1 high1).2
      = (waterfall_bounds true samples soffset low1 high1).1 + 55 ∧
    waterfall_bounds true samples soffset low1 high1
      = waterfall_bounds true samples soffset low2 high2 := by
  refine ⟨rfl, rfl, rfl⟩

theorem cam_apply_preserves (s : CamState) (e : CamEvent)
    (h : 0 ≤ s.tilt_angle ∧ s.tilt_angle ≤ 5 ∧ 1 ≤ s.zoom_level ∧ s.zoom_level ≤ 4) :
    0 ≤ (cam_apply s e).tilt_angle ∧ (cam_apply s e).tilt_angle ≤ 5 ∧
    1 ≤ (cam_apply s e).zoom_level ∧ (cam_apply s e).zoom_level ≤ 4 := by
  obtain ⟨h1, h2, h3, h4⟩ := h
  cases e with
  | buttonPress y => exact ⟨h1, h2, h3, h4⟩
  | motionNotify y =>
      by_cases hd : s.dragging <;>
        simp only [cam_apply, hd, if_true, if_false]
      · exact ⟨le_clampf_left _ _ _ (by norm_num), clampf_le_right _ _ _ (by norm_num),
          h3, h4⟩
      · exact ⟨h1, h2, h3, h4⟩
  | buttonRelease => exact ⟨h1, h2, h3, h4⟩
  | scrollUp =>
      exact ⟨h1, h2, le_clampf_left _ _ _ (by norm_num), clampf_le_right _ _ _ (by norm_num)⟩
  | scrollDown =>
      exact ⟨h1, h2, le_clampf_left _ _ _ (by norm_num), clampf_le_right _ _ _ (by norm_num)⟩
  | scrollSmooth dy =>
      exact ⟨h1, h2, le_clampf_left _ _ _ (by norm_num), clampf_le_right _ _ _ (by norm_num)⟩

theorem cam_foldl_preserves (evs : List CamEvent) :
    ∀ s : CamState,
      (0 ≤ s.tilt_angle ∧ s.tilt_angle ≤ 5 ∧ 1 ≤ s.zoom_level ∧ s.zoom_level ≤ 4) →
      (0 ≤ (evs.foldl cam_apply s).tilt_angle ∧ (evs.foldl cam_apply s).tilt_angle ≤ 5 ∧
       1 ≤ (evs.foldl cam_apply s).zoom_level ∧ (evs.foldl cam_apply s).zoom_level ≤ 4) := by
  induction evs with
  | nil => intro s h; exact h
  | cons e t ih => intro s h; exact ih (cam_apply s e) (cam_apply_preserves s e h)

/-- Claim C8: for every sequence of pointer-drag and scroll events applied
after initialization, tilt_angle stays within [0,5] and zoom_level stays
within [1,4]. -/
theorem camera_clamp_invariant (evs : List CamEvent) :
    0 ≤ (evs.foldl cam_apply cam_init).tilt_angle ∧
    (evs.foldl cam_apply cam_init).tilt_angle ≤ 5 ∧
    1 ≤ (evs.foldl cam_apply cam_init).zoom_level ∧
    (evs.foldl cam_apply cam_init).zoom_level ≤ 4 := by
  exact cam_foldl_preserves evs cam_init (by norm_num [cam_init])

theorem resample_bin_eq (B W x : ℕ) :
    resample_bin B W x = min (x * (B - 1) / (W - 1)) (B - 2) := by
  unfold resample_bin
  have hfloor : ⌊(x : ℚ) / ((W - 1 : ℕ) : ℚ) * ((B - 1 : ℕ) : ℚ)⌋₊
      = x * (B - 1) / (W - 1) := by
    rw [div_mul_eq_mul_div]
    have hc : (x : ℚ) * ((B - 1 : ℕ) : ℚ) = ((x * (B - 1) : ℕ) : ℚ) := by push_cast; ring
    rw [hc]
    exact_mod_cast Nat.floor_div_nat ((x * (B - 1) : ℕ) : ℚ) (W - 1)
  simp only [hfloor]
  split_ifs with h <;> omega

/-- Claim C6: the destination-to-source resampling map of the renderer is
bin(x) = floor(x/(W-1)*(B-1)) clamped to [0, B-2]; it is monotonic, maps 0 to
0 and W-1 to B-2, and the identical index is used to sample both adjacent
history rows of a strip. -/
theorem resampler_monotone_bounds (B W : ℕ) (hB : 2 ≤ B) (hW : 2 ≤ W) :
    (∀ x, resample_bin B W x = min (x * (B - 1) / (W - 1)) (B - 2)) ∧
    (∀ x1 x2, x1 < x2 → resample_bin B W x1 ≤ resample_bin B W x2) ∧
    resample_bin B W 0 = 0 ∧
    resample_bin B W (W - 1) = B - 2 ∧
    (∀ (row0 row1 : List ℚ), ∀ x < W,
      (resample_strip B W row0 row1).getD x (0, 0) =
        (row0.getD (resample_bin B W x) 0, row1.getD (resample_bin B W x) 0)) := by
  refine ⟨resample_bin_eq B W, ?_, ?_, ?_, ?_⟩
  · intro x1 x2 hx
    rw [resample_bin_eq, resample_bin_eq]
    exact min_le_min (Nat.div_le_div_right (Nat.mul_le_mul_right _ hx.le)) le_rfl
  · rw [resample_bin_eq]; simp
  · rw [resample_bin_eq]
    have hdiv : (W - 1) * (B - 1) / (W - 1) = B - 1 :=
      Nat.mul_div_cancel_left (B - 1) (by omega)
    rw [hdiv]
    omega
  · intro row0 row1 x hx
    unfold resample_strip
    simp [List.getD_eq_getElem?_getD, List.getElem?_map, List.getElem?_range, hx]

/-- Claim C7: with p = clamp((sample-low)/(high-low), 0, 1), any input with p
below the 0.35 noise threshold maps to pure black with height 0; p = 1 yields
the maximum height 1 and the unattenuated base palette color (brightness
multiplier 1) for every palette. -/
theorem color_mapper_boundary (low high : ℚ) (palette : ℤ) (sample dist01 : ℚ) :
    (clampf ((sample - low) / (high - low)) 0 1 < noise_threshold →
      sample_to_color low high palette sample dist01 = ⟨0, 0, 0, 1, 0⟩) ∧
    (clampf ((sample - low) / (high - low)) 0 1 = 1 →
      (sample_to_color low high palette sample dist01).h01 = 1 ∧
      ((sample_to_color low high palette sample dist01).r,
       (sample_to_color low high palette sample dist01).g,
       (sample_to_color low high palette sample dist01).b)
        = wf_base_color palette dist01) := by
  constructor
  · intro hp
    simp only [sample_to_color, if_pos hp]
  · intro hp
    have hnot : ¬ clampf ((sample - low) / (high - low)) 0 1 < noise_threshold := by
      rw [hp]; norm_num [noise_threshold]
    simp only [sample_to_color, if_neg hnot, hp, noise_threshold]
    norm_num [clampf]

/-- Claim C3 counterexample: with sample_rate 48000 and 480 bins
(hz_per_bin = 100) and a frequency decrease of 150 Hz, the code computes a
shift of 1 bin (truncation toward zero of 1.5), whereas rounding to the
nearest integer would give 2. -/
theorem rotate_bins_not_round :
    rotate_bins_of 150 0 48000 480 = 1 ∧
    round ((((150 : ℤ) - 0 : ℤ) : ℚ) / ((48000 : ℚ) / (480 : ℚ))) = 2 ∧
    (1 : ℤ) ≠ 2 := by
  refine ⟨?_, ?_, by norm_num⟩
  · unfold rotate_bins_of ratTrunc
    norm_num
  · norm_num [round_eq]

/-- Claim C3 (amended): the per-update shift is the TRUNCATION toward zero of
(old_frequency - new_frequency) / hz_per_bin with hz_per_bin =
sample_rate / bins: floor of (Δf·bins)/sample_rate for nonnegative Δf and
ceiling for negative Δf. -/
theorem rotate_bins_truncates (wfF cur sr : ℤ) (bins : ℕ)
    (hsr : 0 < sr) (hbins : 0 < bins) :
    rotate_bins_of wfF cur sr bins =
      if 0 ≤ wfF - cur then ⌊((wfF - cur : ℤ) : ℚ) * (bins : ℚ) / (sr : ℚ)⌋
      else ⌈((wfF - cur : ℤ) : ℚ) * (bins : ℚ) / (sr : ℚ)⌉ := by
  have hsrQ : (0 : ℚ) < (sr : ℚ) := by exact_mod_cast hsr
  have hbinsQ : (0 : ℚ) < (bins : ℚ) := by exact_mod_cast hbins
  have hdiv : ((wfF - cur : ℤ) : ℚ) / ((sr : ℚ) / (bins : ℚ))
      = ((wfF - cur : ℤ) : ℚ) * (bins : ℚ) / (sr : ℚ) := div_div_eq_mul_div _ _ _
  unfold rotate_bins_of ratTrunc
  rw [hdiv]
  by_cases hΔ : 0 ≤ wfF - cur
  · have hq : (0 : ℚ) ≤ ((wfF - cur : ℤ) : ℚ) * (bins : ℚ) / (sr : ℚ) := by
      apply div_nonneg _ hsrQ.le
      apply mul_nonneg _ hbinsQ.le
      exact_mod_cast hΔ
    rw [if_pos hq, if_pos hΔ]
  · have hΔQ : ((wfF - cur : ℤ) : ℚ) < 0 := by
      push_neg at hΔ
      exact_mod_cast hΔ
    have hq : ((wfF - cur : ℤ) : ℚ) * (bins : ℚ) / (sr : ℚ) < 0 :=
      div_neg_of_neg_of_pos (mul_neg_of_neg_of_pos hΔQ hbinsQ) hsrQ
    rw [if_neg (not_le.mpr hq), if_neg hΔ]

/-- Claim C4: on an update tick with the tracker initialized, sample rate
unchanged, and a frequency jump of more than sample_rate/2, the frequency
tracker performs a full reset (all cells the floor value, head = 0) with no
row rotation, and persists the new frequency/sample rate. -/
theorem large_jump_reset (fs : FreqState) (sampleRate currentFreq : ℤ) (st : WFState)
    (hbins : 0 < st.bins)
    (hinit : fs.wfFrequency ≠ 0)
    (hsr : sampleRate = fs.wfSampleRate)
    (hsr0 : 0 ≤ sampleRate)
    (hjump : sampleRate < 2 * |fs.wfFrequency - currentFreq|) :
    (freq_step fs sampleRate currentFreq st).1 = wf_reset_history st ∧
    (freq_step fs sampleRate currentFreq st).1.history
      = List.replicate st.depth (List.replicate st.bins wfFloor) ∧
    (freq_step fs sampleRate currentFreq st).1.head = 0 ∧
    (freq_step fs sampleRate currentFreq st).2 = ⟨currentFreq, sampleRate⟩ := by
  have hchanged : fs.wfFrequency ≠ currentFreq := by
    intro h
    rw [h] at hjump
    simp at hjump
    omega
  have hcond : fs.wfFrequency < currentFreq - sampleRate / 2 ∨
      currentFreq + sampleRate / 2 < fs.wfFrequency := by
    rcases abs_cases (fs.wfFrequency - currentFreq) with ⟨heq, _⟩ | ⟨heq, _⟩ <;>
      rw [heq] at hjump <;> omega
  simp only [freq_step, if_pos hbins, if_pos (And.intro hinit hsr), if_pos hchanged,
    if_pos hcond]
  simp [wf_reset_history]

theorem rotate_row_length (k : ℤ) (row : List ℚ) :
    (rotate_row k row).length = row.length := by
  unfold rotate_row
  split_ifs <;> simp

theorem rotate_row_zero (r : List ℚ) : rotate_row 0 r = r := by
  unfold rotate_row
  simp only [lt_self_iff_false, if_false, Int.toNat_zero, Nat.zero_min,
    Nat.not_lt_zero, Nat.sub_zero, Nat.min_self]
  apply List.ext_getElem
  · simp
  · intro i h1 h2
    simp only [List.getElem_map, List.getElem_range]
    simp [List.getD_eq_getElem?_getD, List.getElem?_eq_getElem h2]

/-- Claim C2: when the tracker is initialized, the sample rate is unchanged
and the frequency changed by at most half the sample rate, every history row
is shifted by k = rotate_bins cells (positive right, negative left); for
|k| < bins the |k| vacated edge cells of each row hold the floor value and the
remaining bins - |k| cells hold the pre-rotation values shifted by k. -/
theorem rotation_shift_correct (fs : FreqState) (sampleRate currentFreq : ℤ)
    (st : WFState) (k : ℤ)
    (hkdef : k = rotate_bins_of fs.wfFrequency currentFreq sampleRate st.bins)
    (hbins : 0 < st.bins)
    (hinit : fs.wfFrequency ≠ 0)
    (hsr : sampleRate = fs.wfSampleRate)
    (hchanged : fs.wfFrequency ≠ currentFreq)
    (hlo : currentFreq - sampleRate / 2 ≤ fs.wfFrequency)
    (hhi : fs.wfFrequency ≤ currentFreq + sampleRate / 2)
    (hk : k.natAbs < st.bins) :
    (freq_step fs sampleRate currentFreq st).1.history
      = st.history.map (rotate_row k) ∧
    (∀ r ∈ st.history, r.length = st.bins →
      (rotate_row k r).length = st.bins ∧
      (0 ≤ k →
        (∀ i < k.toNat, (rotate_row k r).getD i 0 = wfFloor) ∧
        (∀ i, k.toNat ≤ i → i < st.bins →
          (rotate_row k r).getD i 0 = r.getD (i - k.toNat) 0)) ∧
      (k < 0 →
        (∀ i, st.bins - k.natAbs ≤ i → i < st.bins →
          (rotate_row k r).getD i 0 = wfFloor) ∧
        (∀ i < st.bins - k.natAbs,
          (rotate_row k r).getD i 0 = r.getD (i + k.natAbs) 0))) := by
  have hnotjump : ¬ (fs.wfFrequency < currentFreq - sampleRate / 2 ∨
      currentFreq + sampleRate / 2 < fs.wfFrequency) := by
    push_neg
    exact ⟨hlo, hhi⟩
  constructor
  · simp only [freq_step, if_pos hbins, if_pos (And.intro hinit hsr), if_pos hchanged,
      if_neg hnotjump, ← hkdef]
    by_cases hk0 : k ≠ 0
    · rw [if_pos hk0]
    · push_neg at hk0
      rw [if_neg (by simp [hk0])]
      subst hk0
      rw [List.map_congr_left (fun r _ => rotate_row_zero r)]
      simp
  · intro r _ hr
    refine ⟨by rw [rotate_row_length, hr], ?_, ?_⟩
    · intro hk0
      have hknot : ¬ k < 0 := not_lt.mpr hk0
      have hmin : min k.toNat r.length = k.toNat := by
        rw [hr]
        omega
      constructor
      · intro i hi
        simp only [rotate_row, if_neg hknot, hmin]
        rw [getD_map_range _ _ _ (by omega)]
        rw [if_pos (by omega)]
      · intro i hi1 hi2
        simp only [rotate_row, if_neg hknot, hmin]
        rw [getD_map_range _ _ _ (by omega)]
        rw [if_neg (by omega)]
    · intro hk0
      have habs : (-k).toNat = k.natAbs := by omega
      constructor
      · intro i hi1 hi2
        simp only [rotate_row, if_pos hk0, habs]
        rw [getD_map_range _ _ _ (by omega)]
        rw [if_neg (by omega)]
      · intro i hi
        simp only [rotate_row, if_pos hk0, habs]
        rw [getD_map_range _ _ _ (by omega)]
        rw [if_pos (by omega)]

theorem foldl_push_row_char (L : List (List ℚ)) :
    ∀ s : WFState, s.history.length = s.depth → s.head + L.length < s.depth →
      (L.foldl push_row s).depth = s.depth ∧
      (L.foldl push_row s).bins = s.bins ∧
      (L.foldl push_row s).head = s.head + L.length ∧
      (L.foldl push_row s).history.length = s.depth ∧
      ∀ i < s.depth,
        (L.foldl push_row s).history.getD i []
          = if s.head ≤ i ∧ i < s.head + L.length then L.getD (i - s.head) []
            else s.history.getD i [] := by
  induction L with
  | nil =>
      intro s h1 h2
      refine ⟨rfl, rfl, by simp, h1, ?_⟩
      intro i hi
      simp only [List.length_nil]
      rw [if_neg (by omega)]
      rfl
  | cons r L ih =>
      intro s h1 h2
      have hlen : (r :: L).length = L.length + 1 := List.length_cons r L
      have hheadlt : s.head + 1 < s.depth := by omega
      have hheadmod : (s.head + 1) % s.depth = s.head + 1 := Nat.mod_eq_of_lt hheadlt
      have hfold : (r :: L).foldl push_row s = L.foldl push_row (push_row s r) := rfl
      have hs2hist : (push_row s r).history.length = (push_row s r).depth := by
        simp [push_row, h1]
      have hs2head : (push_row s r).head + L.length < (push_row s r).depth := by
        simp only [push_row, hheadmod]
        omega
      obtain ⟨hd, hb, hh, hl, hc⟩ := ih (push_row s r) hs2hist hs2head
      rw [hfold]
      have hdepth2 : (push_row s r).depth = s.depth := rfl
      refine ⟨by rw [hd, hdepth2], hb, ?_, by rw [hl, hdepth2], ?_⟩
      · rw [hh]
        simp only [push_row, hheadmod, hlen]
        omega
      · intro i hi
        have hph : (push_row s r).head = s.head + 1 := by
          simp [push_row, hheadmod]
        have hphist : (push_row s r).history = s.history.set s.head r := rfl
        have hci := hc i (by rw [hdepth2]; exact hi)
        rw [hph, hphist] at hci
        rw [hci]
        by_cases hcase1 : i = s.head
        · subst hcase1
          rw [if_neg (by omega), if_pos (by omega)]
          have hsetlen : s.head < s.history.length := by omega
          rw [Nat.sub_self]
          simp [List.getD_eq_getElem?_getD, List.getElem?_set, hsetlen]
        · by_cases hcase2 : s.head + 1 ≤ i ∧ i < s.head + 1 + L.length
          · rw [if_pos hcase2, if_pos (by omega)]
            have hidx : i - s.head = (i - (s.head + 1)) + 1 := by omega
            rw [hidx]
            rfl
          · rw [if_neg hcase2, if_neg (by omega)]
            have hcase1s : ¬ s.head = i := fun h => hcase1 h.symm
            simp [List.getD_eq_getElem?_getD, List.getElem?_set, hcase1s]

/-- Claim C1: from a freshly reset buffer of depth D ≥ 1 and bin count B,
pushing n < D rows in order gives head = n; the row of logical age d is the
(n-1-d)-th pushed row for d < n and a floor-filled row for n ≤ d < D; each
push writes its row into physical row head and advances head = (head+1)
mod depth. -/
theorem ring_buffer_push_age (D B : ℕ) (L : List (List ℚ)) (hD : 0 < D)
    (hn : L.length < D) :
    (L.foldl push_row (init_state D B)).head = L.length ∧
    (∀ d < L.length,
      row_at_age (L.foldl push_row (init_state D B)) d
        = L.getD (L.length - 1 - d) []) ∧
    (∀ d, L.length ≤ d → d < D →
      row_at_age (L.foldl push_row (init_state D B)) d
        = List.replicate B wfFloor) ∧
    (∀ (s : WFState) (r : List ℚ), s.head < s.history.length →
      (push_row s r).history.getD s.head [] = r ∧
      (push_row s r).head = (s.head + 1) % s.depth) := by
  have hinitlen : (init_state D B).history.length = (init_state D B).depth := by
    simp [init_state, wf_reset_history]
  have hinithead : (init_state D B).head + L.length < (init_state D B).depth := by
    simp only [init_state, wf_reset_history]
    omega
  obtain ⟨hd, _, hh, _, hc⟩ := foldl_push_row_char L (init_state D B) hinitlen hinithead
  have hzero : (init_state D B).head = 0 := rfl
  have hdepth : (init_state D B).depth = D := rfl
  simp only [hzero, hdepth, Nat.zero_add, Nat.zero_le, true_and, Nat.sub_zero] at hh hc
  have hdD : (L.foldl push_row (init_state D B)).depth = D := hd
  have hhL : (L.foldl push_row (init_state D B)).head = L.length := hh
  refine ⟨hhL, ?_, ?_, ?_⟩
  · intro d hdlt
    unfold row_at_age
    rw [hhL, hdD]
    have hidx : (L.length + D - (d + 1)) % D = L.length - d - 1 := by
      have h1 : L.length + D - (d + 1) = D + (L.length - d - 1) := by omega
      rw [h1, Nat.add_mod_left]
      exact Nat.mod_eq_of_lt (by omega)
    rw [hidx]
    have hcell := hc (L.length - d - 1) (by omega)
    rw [if_pos (by omega)] at hcell
    rw [hcell]
    have : L.length - d - 1 = L.length - 1 - d := by omega
    rw [this]
  · intro d hd1 hd2
    unfold row_at_age
    rw [hhL, hdD]
    have hval : L.length + D - (d + 1) < D := by omega
    have hge : L.length ≤ L.length + D - (d + 1) := by omega
    rw [Nat.mod_eq_of_lt hval]
    have hcell := hc (L.length + D - (d + 1)) hval
    rw [if_neg (by omega)] at hcell
    rw [hcell]
    simp only [init_state, wf_reset_history]
    simp [List.getD_eq_getElem?_getD, List.getElem?_replicate, hval]
  · intro s r hsr
    constructor
    · simp [push_row, List.getD_eq_getElem?_getD, List.getElem?_set, hsr]
    · rfl

/-- Claim C9: on the accepted push, destination bin i stores the floor value
whenever source index i + pan is outside [0, pixelsTotal), and the
corresponding source sample otherwise; the written row is the row of logical
age 0 afterwards. -/
theorem pan_offset_bounds (st : WFState) (pan pixelsTotal : ℤ) (samples : List ℚ)
    (hlen : st.history.length = st.depth)
    (hhead : st.head < st.depth) :
    row_at_age (push_row st (sample_row st.bins pan pixelsTotal samples)) 0
      = sample_row st.bins pan pixelsTotal samples ∧
    ∀ i < st.bins,
      (sample_row st.bins pan pixelsTotal samples).getD i 0
        = if (i : ℤ) + pan < 0 ∨ pixelsTotal ≤ (i : ℤ) + pan then wfFloor
          else samples.getD ((i : ℤ) + pan).toNat 0 := by
  constructor
  · unfold row_at_age push_row
    simp only
    have hidx : ((st.head + 1) % st.depth + st.depth - (0 + 1)) % st.depth = st.head := by
      by_cases hcase : st.head + 1 < st.depth
      · rw [Nat.mod_eq_of_lt hcase]
        have h1 : st.head + 1 + st.depth - (0 + 1) = st.head + st.depth := by omega
        rw [h1, Nat.add_mod_right]
        exact Nat.mod_eq_of_lt hhead
      · have hD : st.head + 1 = st.depth := by omega
        rw [hD, Nat.mod_self]
        have h1 : 0 + st.depth - (0 + 1) = st.depth - 1 := by omega
        rw [h1]
        rw [Nat.mod_eq_of_lt (by omega)]
        omega
    rw [hidx]
    have hsetlen : st.head < st.history.length := by omega
    simp [List.getD_eq_getElem?_getD, List.getElem?_set, hsetlen]
  · intro i hi
    unfold sample_row
    rw [getD_map_range _ _ _ hi]

/-- Claim C5 counterexample: on the very first producer tick after state
creation (update_count = 0), the delivered row is NOT written into history
(head stays 0, all cells keep the floor value) while a redraw IS requested —
the opposite of "accepted into history but suppressed from redraw". -/
theorem agc_first_tick_rejected_not_suppressed :
    (waterfall3dss_update ⟨5, 0, 0, 5, 48000, 7000000, [1, 2, 3, 4, 5]⟩
        ⟨init_state 4 5, ⟨0, 0⟩, 0, 0, 0⟩).pushed = false ∧
    (waterfall3dss_update ⟨5, 0, 0, 5, 48000, 7000000, [1, 2, 3, 4, 5]⟩
        ⟨init_state 4 5, ⟨0, 0⟩, 0, 0, 0⟩).redrawQueued = true ∧
    (waterfall3dss_update ⟨5, 0, 0, 5, 48000, 7000000, [1, 2, 3, 4, 5]⟩
        ⟨init_state 4 5, ⟨0, 0⟩, 0, 0, 0⟩).ts.st.head = 0 ∧
    (waterfall3dss_update ⟨5, 0, 0, 5, 48000, 7000000, [1, 2, 3, 4, 5]⟩
        ⟨init_state 4 5, ⟨0, 0⟩, 0, 0, 0⟩).ts.st.history
      = List.replicate 4 (List.replicate 5 wfFloor) := by
  refine ⟨rfl, rfl, rfl, ?_⟩
  decide

/-- Claim C5 (amended): with no zoom/bin-count/frequency/sample-rate change,
a tick whose incremented update counter is still below 5 (only the first 4
ticks after state creation; the counter is never reset afterwards) leaves the
history buffer completely untouched — the row is NOT accepted — while still
requesting a redraw; every later tick pushes the sampled row and also
requests a redraw. -/
theorem agc_debounce_amended (inp : RxInput) (t : TickState)
    (hw : 2 < inp.screenW)
    (hzoom : t.wfZoom = inp.zoom)
    (hbins : t.st.bins = inp.screenW)
    (hfreq : t.fs.wfFrequency = inp.currentFreq)
    (hfreq0 : inp.currentFreq ≠ 0)
    (hsr : inp.sampleRate = t.fs.wfSampleRate) :
    (t.updateCount + 1 < 5 →
      (waterfall3dss_update inp t).pushed = false ∧
      (waterfall3dss_update inp t).redrawQueued = true ∧
      (waterfall3dss_update inp t).ts.st = t.st) ∧
    (5 ≤ t.updateCount + 1 →
      (waterfall3dss_update inp t).pushed = true ∧
      (waterfall3dss_update inp t).redrawQueued = true ∧
      (waterfall3dss_update inp t).ts.st
        = push_row t.st (sample_row t.st.bins inp.pan inp.pixelsTotal inp.samples)) := by
  have hw0 : ¬ inp.screenW = 0 := by omega
  have hble : ¬ inp.screenW ≤ 2 := by omega
  have hz : ¬ t.wfZoom ≠ inp.zoom := by simp [hzoom]
  have hbne : ¬ t.st.bins ≠ inp.screenW := by simp [hbins]
  have hfs : freq_step t.fs inp.sampleRate inp.currentFreq t.st
      = (t.st, ⟨inp.currentFreq, inp.sampleRate⟩) := by
    unfold freq_step
    rw [if_pos (show 0 < t.st.bins by omega)]
    rw [if_pos (And.intro (show t.fs.wfFrequency ≠ 0 by rw [hfreq]; exact hfreq0) hsr)]
    rw [if_neg (show ¬ t.fs.wfFrequency ≠ inp.currentFreq by simp [hfreq])]
  have hmain : waterfall3dss_update inp t =
      if t.updateCount + 1 < 5 then
        ⟨⟨t.st, ⟨inp.currentFreq, inp.sampleRate⟩, inp.zoom, inp.pan, t.updateCount + 1⟩,
          false, true⟩
      else
        ⟨⟨push_row t.st (sample_row t.st.bins inp.pan inp.pixelsTotal inp.samples),
          ⟨inp.currentFreq, inp.sampleRate⟩, inp.zoom, inp.pan, t.updateCount + 1⟩,
          true, true⟩ := by
    simp only [waterfall3dss_update, if_neg hw0, if_neg hble, if_neg hz, if_neg hbne, hfs]
  rw [hmain]
  constructor
  · intro hcount
    rw [if_pos hcount]
    exact ⟨rfl, rfl, rfl⟩
  · intro hcount
    rw [if_neg (by omega)]
    exact ⟨rfl, rfl, rfl⟩

/-! ## Witnesses -/

theorem ring_buffer_push_age_witness :
    ([[(1 : ℚ), 2, 3, 4], [5, 6, 7, 8], [9, 10, 11, 12]].foldl push_row
        (init_state 4 4)).head = 3 ∧
    row_at_age ([[(1 : ℚ), 2, 3, 4], [5, 6, 7, 8], [9, 10, 11, 12]].foldl push_row
        (init_state 4 4)) 0 = [9, 10, 11, 12] ∧
    row_at_age ([[(1 : ℚ), 2, 3, 4], [5, 6, 7, 8], [9, 10, 11, 12]].foldl push_row
        (init_state 4 4)) 1 = [5, 6, 7, 8] ∧
    row_at_age ([[(1 : ℚ), 2, 3, 4], [5, 6, 7, 8], [9, 10, 11, 12]].foldl push_row
        (init_state 4 4)) 2 = [1, 2, 3, 4] ∧
    row_at_age ([[(1 : ℚ), 2, 3, 4], [5, 6, 7, 8], [9, 10, 11, 12]].foldl push_row
        (init_state 4 4)) 3 = List.replicate 4 wfFloor := by
  have h := ring_buffer_push_age 4 4 [[(1 : ℚ), 2, 3, 4], [5, 6, 7, 8], [9, 10, 11, 12]]
    (by norm_num) (by decide)
  exact ⟨h.1, h.2.1 0 (by decide), h.2.1 1 (by decide), h.2.1 2 (by decide),
    h.2.2.1 3 (by decide) (by decide)⟩

theorem rotation_shift_correct_witness :
    (freq_step ⟨1250, 1000⟩ 1000 1000
        ⟨2, 10, 0, [[(0 : ℚ), 1, 2, 3, 4, 5, 6, 7, 8, 9],
                    [10, 11, 12, 13, 14, 15, 16, 17, 18, 19]]⟩).1.history
      = [[(0 : ℚ), 1, 2, 3, 4, 5, 6, 7, 8, 9],
         [10, 11, 12, 13, 14, 15, 16, 17, 18, 19]].map (rotate_row 2) :=
  (rotation_shift_correct ⟨1250, 1000⟩ 1000 1000
    ⟨2, 10, 0, [[(0 : ℚ), 1, 2, 3, 4, 5, 6, 7, 8, 9],
                [10, 11, 12, 13, 14, 15, 16, 17, 18, 19]]⟩ 2
    (by norm_num [rotate_bins_of, ratTrunc]) (by norm_num) (by norm_num) rfl
    (by norm_num) (by norm_num) (by norm_num) (by norm_num)).1

theorem rotate_bins_truncates_witness :
    rotate_bins_of 0 150 48000 480 = -1 := by
  rw [rotate_bins_truncates 0 150 48000 480 (by norm_num) (by norm_num)]
  rw [if_neg (by norm_num)]
  have hval : (((0 : ℤ) - 150 : ℤ) : ℚ) * ((480 : ℕ) : ℚ) / ((48000 : ℤ) : ℚ)
      = -(3/2) := by
    push_cast
    norm_num
  rw [hval, Int.ceil_neg]
  norm_num

theorem large_jump_reset_witness :
    (freq_step ⟨7000000, 48000⟩ 48000 7100000
        ⟨2, 3, 1, [[(1 : ℚ), 2, 3], [4, 5, 6]]⟩).1.head = 0 ∧
    (freq_step ⟨7000000, 48000⟩ 48000 7100000
        ⟨2, 3, 1, [[(1 : ℚ), 2, 3], [4, 5, 6]]⟩).1.history
      = List.replicate 2 (List.replicate 3 wfFloor) := by
  have h := large_jump_reset ⟨7000000, 48000⟩ 48000 7100000
    ⟨2, 3, 1, [[(1 : ℚ), 2, 3], [4, 5, 6]]⟩
    (by norm_num) (by norm_num) rfl (by norm_num) (by decide)
  exact ⟨h.2.2.1, h.2.1⟩

theorem agc_debounce_amended_witness :
    (waterfall3dss_update ⟨5, 0, 0, 5, 48000, 7000000, [1, 2, 3, 4, 5]⟩
        ⟨⟨4, 5, 0, []⟩, ⟨7000000, 48000⟩, 0, 0, 0⟩).pushed = false ∧
    (waterfall3dss_update ⟨5, 0, 0, 5, 48000, 7000000, [1, 2, 3, 4, 5]⟩
        ⟨⟨4, 5, 0, []⟩, ⟨7000000, 48000⟩, 0, 0, 0⟩).redrawQueued = true ∧
    (waterfall3dss_update ⟨5, 0, 0, 5, 48000, 7000000, [1, 2, 3, 4, 5]⟩
        ⟨⟨4, 5, 0, []⟩, ⟨7000000, 48000⟩, 0, 0, 7⟩).pushed = true := by
  have h1 := agc_debounce_amended ⟨5, 0, 0, 5, 48000, 7000000, [1, 2, 3, 4, 5]⟩
    ⟨⟨4, 5, 0, []⟩, ⟨7000000, 48000⟩, 0, 0, 0⟩
    (by norm_num) rfl rfl rfl (by norm_num) rfl
  have h2 := agc_debounce_amended ⟨5, 0, 0, 5, 48000, 7000000, [1, 2, 3, 4, 5]⟩
    ⟨⟨4, 5, 0, []⟩, ⟨7000000, 48000⟩, 0, 0, 7⟩
    (by norm_num) rfl rfl rfl (by norm_num) rfl
  exact ⟨(h1.1 (by norm_num)).1, (h1.1 (by norm_num)).2.1, (h2.2 (by norm_num)).1⟩

theorem resampler_monotone_bounds_witness :
    resample_bin 4 6 0 = 0 ∧ resample_bin 4 6 5 = 2 ∧
    resample_bin 4 6 2 ≤ resample_bin 4 6 3 := by
  have h := resampler_monotone_bounds 4 6 (by norm_num) (by norm_num)
  exact ⟨h.2.2.1, h.2.2.2.1, h.2.1 2 3 (by norm_num)⟩

theorem color_mapper_boundary_witness :
    sample_to_color 0 1 0 0 (1/2) = ⟨0, 0, 0, 1, 0⟩ ∧
    (sample_to_color 0 1 0 1 (1/2)).h01 = 1 ∧
    ((sample_to_color 0 1 0 1 (1/2)).r, (sample_to_color 0 1 0 1 (1/2)).g,
     (sample_to_color 0 1 0 1 (1/2)).b) = wf_base_color 0 (1/2) := by
  have h1 := (color_mapper_boundary 0 1 0 0 (1/2)).1
    (by norm_num [clampf, noise_threshold])
  have h2 := (color_mapper_boundary 0 1 0 1 (1/2)).2 (by norm_num [clampf])
  exact ⟨h1, h2.1, h2.2⟩

theorem pan_offset_bounds_witness :
    row_at_age (push_row ⟨3, 4, 1, [[(1 : ℚ), 2, 3, 4], [5, 6, 7, 8], [9, 10, 11, 12]]⟩
        (sample_row 4 (-2) 4 [10, 20, 30, 40])) 0
      = sample_row 4 (-2) 4 [10, 20, 30, 40] ∧
    (sample_row 4 (-2) 4 [(10 : ℚ), 20, 30, 40]).getD 0 0 = wfFloor ∧
    (sample_row 4 (-2) 4 [(10 : ℚ), 20, 30, 40]).getD 2 0 = 10 := by
  have h := pan_offset_bounds ⟨3, 4, 1, [[(1 : ℚ), 2, 3, 4], [5, 6, 7, 8], [9, 10, 11, 12]]⟩
    (-2) 4 [10, 20, 30, 40] rfl (by norm_num)
  refine ⟨h.1, ?_, ?_⟩
  · have h0 := h.2 0 (by norm_num)
    rw [if_pos (Or.inl (by norm_num))] at h0
    exact h0
  · have h2 := h.2 2 (by norm_num)
    rw [if_neg (by norm_num)] at h2
    simpa using h2

end WF3DSS
